import Mathlib

/-!
Shallow embedding of the three top-N filesystem scanners of the repository
(files/topcounts.py, files/topdirs.py, files/topfiles.py), together with
proofs of the stated properties of the bounded Top-K scanning pattern.

Modelling conventions:
* Python float arithmetic on file sizes is embedded as exact rational
  arithmetic over the same expressions (sizes divided by 1024*1024); all
  concrete sizes involved are exactly representable, so the embedding is
  faithful on every input considered here.
* The filesystem is a finite tree of directories; a file entry carries an
  optional byte size, where none models a file that vanished between the
  directory listing and the stat call (os.path.getsize raising
  FileNotFoundError).
* os.walk is embedded as a pre-order traversal producing, per visited
  directory, the pair of its path and the list of its direct file entries;
  for a root that does not exist, os.walk with the default onerror=None
  silently yields no entries at all, which the embedding reproduces.
-/

/-- Python os.path.join for the simple two-argument form used by the scripts. -/
def pyJoin (p name : String) : String := p ++ "/" ++ name

/-- Python list slicing l[:n] for an int n: a nonnegative n keeps the first n
elements, a negative n drops the last -n elements (never going below the
empty list). -/
def pySlice {γ : Type} (l : List γ) (n : ℤ) : List γ :=
  if 0 ≤ n then l.take n.toNat else l.take (l.length - (-n).toNat)

/-- Python enumerate(l, i): pair every element with its 1-based (in the
scripts, i = 1) running index. -/
def pyEnumerate {γ : Type} (i : ℕ) : List γ → List (ℕ × γ)
  | [] => []
  | x :: xs => (i, x) :: pyEnumerate (i + 1) xs

/-- Digit accumulator for the model of Python int(). -/
def natOfDigitsAux (acc : ℕ) : List Char → Option ℕ
  | [] => some acc
  | c :: cs => if c.isDigit then natOfDigitsAux (10 * acc + (c.toNat - 48)) cs else none

/-- Decimal digits to a natural number; none when empty or a non-digit occurs. -/
def natOfDigits : List Char → Option ℕ
  | [] => none
  | c :: cs => natOfDigitsAux 0 (c :: cs)

/-- Model of Python int(string) on the command-line arguments: an optional
sign followed by decimal digits parses to the integer, anything else raises
ValueError, modelled as none. -/
def pyInt (s : String) : Option ℤ :=
  match s.toList with
  | '-' :: cs => (natOfDigits cs).map (fun n => -(n : ℤ))
  | '+' :: cs => (natOfDigits cs).map (fun n => (n : ℤ))
  | cs => (natOfDigits cs).map (fun n => (n : ℤ))

/-- The descending comparison used by every sort call in the scripts:
list.sort(key=lambda f: f[0], reverse=True) orders pairs so that larger
first components come first. -/
def rdesc {α β : Type} [LinearOrder α] (a b : α × β) : Prop := b.1 ≤ a.1

instance {α β : Type} [LinearOrder α] : DecidableRel (@rdesc α β _) :=
  fun a b => inferInstanceAs (Decidable (b.1 ≤ a.1))

instance {α β : Type} [LinearOrder α] : IsTotal (α × β) rdesc :=
  ⟨fun a b => (le_total b.1 a.1).imp id id⟩

instance {α β : Type} [LinearOrder α] : IsTrans (α × β) rdesc :=
  ⟨fun _ _ _ h1 h2 => le_trans h2 h1⟩

/-- Model of the Python stable sort with key = first component and
reverse=True: insertion sort for the descending relation, which is stable
(equal keys keep their relative order). -/
def pySort {α β : Type} [LinearOrder α] (l : List (α × β)) : List (α × β) :=
  l.insertionSort rdesc

/-- One loop iteration of the accumulator pattern shared by topcounts.py and
topdirs.py: append the new measurement, sort descending by metric with the
stable sort, truncate with the Python slice l[:num_dirs]. -/
def stepTopK {α β : Type} [LinearOrder α] (K : ℤ) (s : List (α × β)) (x : α × β) :
    List (α × β) :=
  pySlice (pySort (s ++ [x])) K

/-- A directory entry as seen by the scripts: a filename plus the result of
os.path.getsize on it, where none models FileNotFoundError (the file
vanished between listing and stat). -/
structure FileEntry where
  name : String
  size : Option ℕ
deriving DecidableEq

mutual
/-- A directory: its direct file entries and its named subdirectories. -/
inductive FSTree where
  | node : List FileEntry → FSForest → FSTree
/-- A list of named subdirectories. -/
inductive FSForest where
  | fnil : FSForest
  | fcons : String → FSTree → FSForest → FSForest
end

mutual
/-- Model of os.walk from a root path: pre-order traversal yielding, per
visited directory, its path and its direct file entries. -/
def FSTree.walk (p : String) : FSTree → List (String × List FileEntry)
  | .node files subs => (p, files) :: FSForest.walk p subs
def FSForest.walk (p : String) : FSForest → List (String × List FileEntry)
  | .fnil => []
  | .fcons name t rest => FSTree.walk (pyJoin p name) t ++ FSForest.walk p rest
end

mutual
/-- Erase from a tree every file entry whose stat fails (size = none). -/
def FSTree.removeVanished : FSTree → FSTree
  | .node files subs => .node (files.filter (fun f => f.size.isSome)) subs.removeVanished
def FSForest.removeVanished : FSForest → FSForest
  | .fnil => .fnil
  | .fcons name t rest => .fcons name t.removeVanished rest.removeVanished
end

/-- The ambient filesystem: which tree, if any, is rooted at a given path. -/
def FS : Type := String → Option FSTree

/-- os.walk(start_dir): the pre-order entry list for an existing root, and no
entries at all for a missing root (default onerror=None swallows the error). -/
def osWalk (fs : FS) (start_dir : String) : List (String × List FileEntry) :=
  match fs start_dir with
  | none => []
  | some t => t.walk start_dir

/-- get_dir_counts from topcounts.py: walk the tree and, per directory,
append (len(filenames), root), sort descending, truncate to num_dirs. -/
def get_dir_counts (fs : FS) (start_dir : String) (num_dirs : ℤ) :
    List (ℕ × String) :=
  (osWalk fs start_dir).foldl
    (fun counts entry => stepTopK num_dirs counts (entry.2.length, entry.1)) []

/-- The inner loop of get_dir_sizes from topdirs.py: sum os.path.getsize of
the direct files in megabytes, with FileNotFoundError skipped by the
try/except (a vanished file adds nothing). -/
def dirSize (filenames : List FileEntry) : ℚ :=
  filenames.foldl
    (fun size f =>
      match f.size with
      | some n => size + (n : ℚ) / (1024 * 1024)
      | none => size)
    0

/-- get_dir_sizes from topdirs.py: walk the tree and, per directory, append
(size, root) with size the direct-file megabyte sum, sort descending,
truncate to num_dirs. -/
def get_dir_sizes (fs : FS) (start_dir : String) (num_dirs : ℤ) :
    List (ℚ × String) :=
  (osWalk fs start_dir).foldl
    (fun sizes entry => stepTopK num_dirs sizes (dirSize entry.2, entry.1)) []

/-- MIN_FILE_SIZE from topfiles.py: 1.0 megabyte, a hard-coded constant. -/
def MIN_FILE_SIZE : ℚ := 1

/-- The per-file body of find_large_files from topfiles.py: stat the file
(FileNotFoundError skips the whole body), convert to megabytes, append when
at least MIN_FILE_SIZE, and when the list has reached max_files entries sort
it descending and truncate with files[:max_files]. -/
def flfStep (max_files : ℤ) (files : List (ℚ × String)) (item : String × FileEntry) :
    List (ℚ × String) :=
  match item.2.size with
  | none => files
  | some size_bytes =>
    let size_mb : ℚ := (size_bytes : ℚ) / (1024 * 1024)
    let files1 := if MIN_FILE_SIZE ≤ size_mb then files ++ [(size_mb, item.1)] else files
    if max_files ≤ (files1.length : ℤ) then pySlice (pySort files1) max_files else files1

/-- find_large_files from topfiles.py: walk the tree and run the per-file
body on every direct file of every visited directory. -/
def find_large_files (fs : FS) (start_dir : String) (max_files : ℤ) :
    List (ℚ × String) :=
  (osWalk fs start_dir).foldl
    (fun files entry =>
      entry.2.foldl (fun files1 f => flfStep max_files files1 (pyJoin entry.1 f.name, f))
        files)
    []

/-- get_top_n from topfiles.py: sort descending and truncate with files[:n]. -/
def get_top_n (files : List (ℚ × String)) (n : ℤ) : List (ℚ × String) :=
  pySlice (pySort files) n

/-- Observable outcome of one tool invocation: usage is the usage message on
standard error plus sys.exit(1); crash is an uncaught exception (non-zero
process exit, here the ValueError from int on a non-numeric argument, raised
after the header row is printed); ok rows is the header row followed by the
1-indexed ranked rows and process exit 0. -/
inductive RunResult (ρ : Type) where
  | usage : RunResult ρ
  | crash : RunResult ρ
  | ok : List (ℕ × ρ) → RunResult ρ
deriving DecidableEq

/-- The main block of topcounts.py: argument-count check, header, int(argv[1]),
scan, 1-indexed rows. -/
def topcounts_main (fs : FS) (argv : List String) : RunResult (ℕ × String) :=
  match argv with
  | [_, a1, a2] =>
    (match pyInt a1 with
     | none => .crash
     | some num_dirs => .ok (pyEnumerate 1 (get_dir_counts fs a2 num_dirs)))
  | _ => .usage

/-- The main block of topdirs.py. -/
def topdirs_main (fs : FS) (argv : List String) : RunResult (ℚ × String) :=
  match argv with
  | [_, a1, a2] =>
    (match pyInt a1 with
     | none => .crash
     | some num_dirs => .ok (pyEnumerate 1 (get_dir_sizes fs a2 num_dirs)))
  | _ => .usage

/-- The main block of topfiles.py: the rows come from get_top_n applied to
find_large_files. -/
def topfiles_main (fs : FS) (argv : List String) : RunResult (ℚ × String) :=
  match argv with
  | [_, a1, a2] =>
    (match pyInt a1 with
     | none => .crash
     | some num_files => .ok (pyEnumerate 1 (get_top_n (find_large_files fs a2 num_files) num_files)))
  | _ => .usage

/-- Remove the vanished file entries everywhere in the filesystem. -/
def cleanFS (fs : FS) : FS := fun p => (fs p).map FSTree.removeVanished

/-- Drop the vanished file entries from one walk entry. -/
def cleanEntry (e : String × List FileEntry) : String × List FileEntry :=
  (e.1, e.2.filter (fun f => f.size.isSome))

/-- The flattened per-file item stream of find_large_files: every direct file
of every visited directory, paired with its joined path, in walk order. -/
def walkItems (fs : FS) (start_dir : String) : List (String × FileEntry) :=
  (osWalk fs start_dir).flatMap
    (fun entry => entry.2.map (fun f => (pyJoin entry.1 f.name, f)))

/-- A filesystem with no directories at all (every root path is missing). -/
def fsEmpty : FS := fun _ => none

/-- A two-directory, zero-file sample tree used to instantiate theorems. -/
def sampleTree : FSTree := .node [] (.fcons "a" (.node [] .fnil) .fnil)

/-- The sample tree mounted at /r. -/
def fsSample : FS := fun p => if p = "/r" then some sampleTree else none

/-- The DirectSize scenario tree: /d holds a 2.0 MB file and a 3.0 MB file
directly, and /d/sub holds a 100 MB file. -/
def dTree : FSTree :=
  .node [⟨"f2", some 2097152⟩, ⟨"f3", some 3145728⟩]
    (.fcons "sub" (.node [⟨"big", some 104857600⟩] .fnil) .fnil)

/-- The DirectSize scenario tree mounted at /d. -/
def dFS : FS := fun p => if p = "/d" then some dTree else none

/-- A tree whose only file is 943718 bytes, strictly below 1.0 MB. -/
def smallTree : FSTree := .node [⟨"tiny", some 943718⟩] .fnil

/-- The small-file tree mounted at /r. -/
def smallFS : FS := fun p => if p = "/r" then some smallTree else none

/-- A tree whose only file is exactly 1048576 bytes, exactly 1.0 MB. -/
def exactTree : FSTree := .node [⟨"big", some 1048576⟩] .fnil

/-- The exact-1.0-MB tree mounted at /r. -/
def exactFS : FS := fun p => if p = "/r" then some exactTree else none

/-- A file qualifies for the FileSize mode when its stat succeeds and its
megabyte size is at least the floor. -/
def qualifies (f : FileEntry) : Bool :=
  match f.size with
  | some n => decide (MIN_FILE_SIZE ≤ (n : ℚ) / (1024 * 1024))
  | none => false

/-- Number of qualifying per-file measurements in a whole walk. -/
def qualifyingCount (fs : FS) (start_dir : String) : ℕ :=
  ((osWalk fs start_dir).flatMap (fun entry => entry.2)).countP qualifies

/-- Stable sorted insertion of a latest-arriving measurement: it is placed
after every entry whose metric is at least its own, so equal-metric entries
that arrived earlier stay in front of it. -/
def insLast {α β : Type} [LinearOrder α] (x : α × β) : List (α × β) → List (α × β)
  | [] => [x]
  | b :: t => if x.1 ≤ b.1 then b :: insLast x t else x :: b :: t

/-- Modelled from the spec, section 4.3 (this compare-and-evict selector is
described in the spec only; the scripts implement the resort strategy):
while the list holds fewer than K entries, insert the incoming measurement
in sorted position, stably after equal-metric entries; at capacity, compare
with the tail, evict the tail and insert when strictly greater, otherwise
discard the incoming measurement. -/
def specEvict {α β : Type} [LinearOrder α] (K : ℕ) (l : List (α × β)) (x : α × β) :
    List (α × β) :=
  if l.length < K then insLast x l
  else
    match l.getLast? with
    | none => l
    | some tail => if tail.1 < x.1 then insLast x l.dropLast else l

section SortLemmas

variable {α β : Type} [LinearOrder α]

theorem pySlice_of_nonneg {γ : Type} (l : List γ) (n : ℤ) (h : 0 ≤ n) :
    pySlice l n = l.take n.toNat := by
  simp [pySlice, h]

theorem pySlice_nil {γ : Type} (n : ℤ) : pySlice ([] : List γ) n = [] := by
  simp [pySlice]

theorem insLast_length (x : α × β) (l : List (α × β)) :
    (insLast x l).length = l.length + 1 := by
  induction l with
  | nil => rfl
  | cons b t ih =>
    by_cases h : x.1 ≤ b.1 <;> simp [insLast, h, ih]

theorem pySort_sorted (l : List (α × β)) : List.Sorted rdesc (pySort l) :=
  List.sorted_insertionSort rdesc l

theorem pySort_of_sorted {l : List (α × β)} (h : List.Sorted rdesc l) : pySort l = l :=
  List.Sorted.insertionSort_eq h

theorem pySort_perm (l : List (α × β)) : List.Perm (pySort l) l :=
  List.perm_insertionSort rdesc l

theorem pySort_length (l : List (α × β)) : (pySort l).length = l.length :=
  (pySort_perm l).length_eq

theorem sorted_take {l : List (α × β)} (h : List.Sorted rdesc l) (n : ℕ) :
    List.Sorted rdesc (l.take n) :=
  List.Pairwise.sublist (List.take_sublist n l) h

theorem orderedInsert_of_forall (a : α × β) (l : List (α × β))
    (h : ∀ b ∈ l, rdesc a b) : List.orderedInsert rdesc a l = a :: l := by
  cases l with
  | nil => rfl
  | cons b t => simp [List.orderedInsert, h b (List.mem_cons_self b t)]

theorem orderedInsert_insLast (a x : α × β) (s : List (α × β))
    (hs : List.Sorted rdesc s) :
    List.orderedInsert rdesc a (insLast x s) = insLast x (List.orderedInsert rdesc a s) := by
  induction s with
  | nil =>
    by_cases hxa : x.1 ≤ a.1 <;>
      simp [insLast, List.orderedInsert, rdesc, hxa]
  | cons b t ih =>
    have ht : List.Sorted rdesc t := (List.sorted_cons.mp hs).2
    by_cases hxb : x.1 ≤ b.1
    · by_cases hab : b.1 ≤ a.1
      · have hxa : x.1 ≤ a.1 := le_trans hxb hab
        simp [insLast, hxb, List.orderedInsert, hab, rdesc, hxa]
      · simp [insLast, hxb, List.orderedInsert, hab, rdesc, ih ht]
    · by_cases hab : b.1 ≤ a.1
      · by_cases hxa : x.1 ≤ a.1
        · simp [insLast, hxb, hxa, List.orderedInsert, hab, rdesc]
        · simp [insLast, hxb, hxa, List.orderedInsert, hab, rdesc]
      · have hxa : ¬ x.1 ≤ a.1 := by
          intro hc
          exact hab (le_trans (le_of_not_le hxb) hc)
        simp [insLast, hxb, hxa, List.orderedInsert, hab, rdesc]

theorem pySort_append_last (l : List (α × β)) (x : α × β) :
    pySort (l ++ [x]) = insLast x (pySort l) := by
  induction l with
  | nil => rfl
  | cons a t ih =>
    show List.orderedInsert rdesc a (pySort (t ++ [x])) = insLast x (List.orderedInsert rdesc a (pySort t))
    rw [ih, orderedInsert_insLast a x (pySort t) (pySort_sorted t)]

theorem insLast_take_append (x : α × β) (s t : List (α × β)) :
    (insLast x (s ++ t)).take s.length = (insLast x s).take s.length := by
  induction s with
  | nil => simp
  | cons b s ih =>
    by_cases hxb : x.1 ≤ b.1
    · simp only [List.cons_append, insLast, if_pos hxb, List.length_cons,
        List.take_succ_cons, List.append_eq, ih]
    · simp only [List.cons_append, insLast, if_neg hxb, List.length_cons,
        List.take_succ_cons, List.append_eq]
      have h1 : ((b :: s) ++ t).take s.length = (b :: s).take s.length :=
        List.take_append_of_le_length (show s.length ≤ (b :: s).length from Nat.le_succ s.length)
      rw [show b :: (s ++ t) = (b :: s) ++ t from rfl, h1]

end SortLemmas

section TopKCore

variable {α β : Type} [LinearOrder α]

theorem insLast_of_le (x : α × β) (s : List (α × β)) (h : ∀ b ∈ s, x.1 ≤ b.1) :
    insLast x s = s ++ [x] := by
  induction s with
  | nil => rfl
  | cons b t ih =>
    simp only [insLast, if_pos (h b (List.mem_cons_self b t)), List.cons_append]
    rw [ih (fun c hc => h c (List.mem_cons_of_mem b hc))]

theorem insLast_dropLast (x : α × β) (s : List (α × β)) (h : s ≠ [])
    (hlt : (s.getLast h).1 < x.1) :
    insLast x s = insLast x s.dropLast ++ [s.getLast h] := by
  induction s with
  | nil => exact absurd rfl h
  | cons b t ih =>
    cases t with
    | nil =>
      have hb : (([b] : List (α × β)).getLast h).1 = b.1 := rfl
      have hxb : ¬ x.1 ≤ b.1 := not_le_of_lt (hb ▸ hlt)
      simp [insLast, hxb, List.getLast]
    | cons c t2 =>
      have hne : c :: t2 ≠ ([] : List (α × β)) := List.cons_ne_nil c t2
      have hlast : (b :: c :: t2).getLast h = (c :: t2).getLast hne :=
        List.getLast_cons hne
      by_cases hxb : x.1 ≤ b.1
      · have e1 : insLast x (b :: c :: t2) = b :: insLast x (c :: t2) := by
          simp [insLast, hxb]
        have e2 : insLast x ((b :: c :: t2).dropLast) = b :: insLast x ((c :: t2).dropLast) := by
          simp [List.dropLast_cons₂, insLast, hxb]
        rw [e1, e2, hlast, ih hne (by rw [hlast] at hlt; exact hlt)]
        simp
      · have e1 : insLast x (b :: c :: t2) = x :: b :: c :: t2 := by
          simp [insLast, hxb]
        have e2 : insLast x ((b :: c :: t2).dropLast) = x :: b :: (c :: t2).dropLast := by
          simp [List.dropLast_cons₂, insLast, hxb]
        rw [e1, e2, hlast]
        simp [List.dropLast_append_getLast hne]

theorem sorted_getLast_le (s : List (α × β)) (hs : List.Sorted rdesc s) (h : s ≠ [])
    (b : α × β) (hb : b ∈ s) : (s.getLast h).1 ≤ b.1 := by
  induction s with
  | nil => exact absurd rfl h
  | cons a t ih =>
    cases t with
    | nil =>
      have : b = a := by simpa using hb
      subst this
      exact le_refl _
    | cons c t2 =>
      have hne : c :: t2 ≠ ([] : List (α × β)) := List.cons_ne_nil c t2
      rw [List.getLast_cons hne]
      rcases List.mem_cons.mp hb with hba | hbt
      · subst hba
        have hmem : (c :: t2).getLast hne ∈ c :: t2 := List.getLast_mem hne
        exact (List.sorted_cons.mp hs).1 _ hmem
      · exact ih (List.sorted_cons.mp hs).2 hne hbt

theorem mem_take_insLast (l : List (α × β)) (hs : List.Sorted rdesc l)
    (y x : α × β) (hy : y ∈ l) (hxy : x.1 ≤ y.1) :
    y ∈ (insLast x l).take l.length := by
  induction l with
  | nil => exact absurd hy (List.not_mem_nil y)
  | cons b t ih =>
    by_cases hxb : x.1 ≤ b.1
    · simp only [insLast, if_pos hxb, List.length_cons, List.take_succ_cons]
      rcases List.mem_cons.mp hy with hyb | hyt
      · exact hyb ▸ List.mem_cons_self b _
      · exact List.mem_cons_of_mem b (ih (List.sorted_cons.mp hs).2 hyt)
    · exfalso
      rcases List.mem_cons.mp hy with hyb | hyt
      · exact hxb (hyb ▸ hxy)
      · have : y.1 ≤ b.1 := (List.sorted_cons.mp hs).1 y hyt
        exact hxb (le_trans hxy this)

theorem insLast_take_take (x : α × β) (s : List (α × β)) (k : ℕ) :
    (insLast x (s.take k)).take k = (insLast x s).take k := by
  by_cases hk : s.length ≤ k
  · rw [List.take_of_length_le hk]
  · have hlen : (s.take k).length = k := by
      rw [List.length_take]
      omega
    have h1 := insLast_take_append x (s.take k) (s.drop k)
    rw [List.take_append_drop, hlen] at h1
    exact h1.symm

theorem foldl_resort_take (k : ℕ) (offers : List (α × β)) :
    offers.foldl (fun s x => (pySort (s ++ [x])).take k) [] = (pySort offers).take k := by
  induction offers using List.reverseRecOn with
  | nil => simp [pySort]
  | append_singleton l x ih =>
    rw [List.foldl_append]
    simp only [List.foldl_cons, List.foldl_nil]
    rw [ih, pySort_append_last]
    have hsorted : List.Sorted rdesc ((pySort l).take k) := sorted_take (pySort_sorted l) k
    rw [pySort_append_last, pySort_of_sorted hsorted]
    exact insLast_take_take x (pySort l) k

theorem specEvict_sorted_step (k : ℕ) (hk : 1 ≤ k) (s : List (α × β)) (x : α × β)
    (hs : List.Sorted rdesc s) (hlen : s.length ≤ k) :
    specEvict k s x = (insLast x s).take k := by
  by_cases hlt : s.length < k
  · rw [specEvict, if_pos hlt, List.take_of_length_le]
    rw [insLast_length]
    omega
  · have hsk : s.length = k := by omega
    have hne : s ≠ [] := by
      intro he
      rw [he] at hsk
      simp at hsk
      omega
    rw [specEvict, if_neg hlt, List.getLast?_eq_getLast s hne]
    by_cases hx : (s.getLast hne).1 < x.1
    · simp only [if_pos hx]
      rw [insLast_dropLast x s hne hx]
      have hlen2 : (insLast x s.dropLast).length = k := by
        rw [insLast_length, List.length_dropLast, hsk]
        omega
      rw [List.take_append_of_le_length (le_of_eq hlen2.symm), List.take_of_length_le (le_of_eq hlen2)]
    · simp only [if_neg hx]
      have hall : ∀ b ∈ s, x.1 ≤ b.1 := by
        intro b hb
        exact le_trans (le_of_not_lt hx) (sorted_getLast_le s hs hne b hb)
      rw [insLast_of_le x s hall, List.take_append_of_le_length (le_of_eq hsk.symm),
        List.take_of_length_le (le_of_eq hsk)]

theorem foldl_specEvict_take (k : ℕ) (hk : 1 ≤ k) (offers : List (α × β)) :
    offers.foldl (specEvict k) [] = (pySort offers).take k := by
  induction offers using List.reverseRecOn with
  | nil => simp [pySort]
  | append_singleton l x ih =>
    rw [List.foldl_append]
    simp only [List.foldl_cons, List.foldl_nil]
    rw [ih, pySort_append_last]
    have hsorted : List.Sorted rdesc ((pySort l).take k) := sorted_take (pySort_sorted l) k
    have hlen : ((pySort l).take k).length ≤ k := by
      rw [List.length_take]
      omega
    rw [specEvict_sorted_step k hk _ x hsorted hlen]
    exact insLast_take_take x (pySort l) k

theorem stepTopK_pos (K : ℤ) (hK : 1 ≤ K) (s : List (α × β)) (x : α × β) :
    stepTopK K s x = (pySort (s ++ [x])).take K.toNat := by
  rw [stepTopK, pySlice_of_nonneg]
  omega

theorem foldl_stepTopK_pos (K : ℤ) (hK : 1 ≤ K) (offers : List (α × β)) :
    offers.foldl (stepTopK K) [] = (pySort offers).take K.toNat := by
  have he : (stepTopK K : List (α × β) → α × β → List (α × β)) =
      fun s x => (pySort (s ++ [x])).take K.toNat :=
    funext fun s => funext fun x => stepTopK_pos K hK s x
  rw [he, foldl_resort_take]

end TopKCore

section DerivedFacts

variable {α β : Type} [LinearOrder α]

theorem take_pySort_length (k : ℕ) (l : List (α × β)) :
    ((pySort l).take k).length = min k l.length := by
  rw [List.length_take, pySort_length]

theorem get_dir_counts_closed (fs : FS) (sd : String) (K : ℤ) (hK : 1 ≤ K) :
    get_dir_counts fs sd K =
      (pySort ((osWalk fs sd).map (fun e => (e.2.length, e.1)))).take K.toNat := by
  rw [get_dir_counts, show (osWalk fs sd).foldl
      (fun counts entry => stepTopK K counts (entry.2.length, entry.1)) [] =
      ((osWalk fs sd).map (fun e => (e.2.length, e.1))).foldl (stepTopK K) [] from
      (List.foldl_map _ _ _ _).symm,
    foldl_stepTopK_pos K hK]

theorem get_dir_sizes_closed (fs : FS) (sd : String) (K : ℤ) (hK : 1 ≤ K) :
    get_dir_sizes fs sd K =
      (pySort ((osWalk fs sd).map (fun e => (dirSize e.2, e.1)))).take K.toNat := by
  rw [get_dir_sizes, show (osWalk fs sd).foldl
      (fun sizes entry => stepTopK K sizes (dirSize entry.2, entry.1)) [] =
      ((osWalk fs sd).map (fun e => (dirSize e.2, e.1))).foldl (stepTopK K) [] from
      (List.foldl_map _ _ _ _).symm,
    foldl_stepTopK_pos K hK]

theorem pySlice_short_nonpos {γ : Type} (l : List γ) (K : ℤ) (hK : K ≤ 0)
    (hl : l.length ≤ 1) : pySlice l K = [] := by
  rw [pySlice]
  by_cases h0 : 0 ≤ K
  · have : K = 0 := le_antisymm hK h0
    simp [this]
  · rw [if_neg h0]
    have : l.length - (-K).toNat = 0 := by omega
    simp [this]

theorem stepTopK_nonpos (K : ℤ) (hK : K ≤ 0) (x : α × β) : stepTopK K [] x = [] := by
  rw [stepTopK]
  exact pySlice_short_nonpos _ K hK (by simp [pySort, List.insertionSort])

theorem foldl_stepTopK_nonpos {γ : Type} (K : ℤ) (hK : K ≤ 0) (g : γ → α × β) :
    ∀ entries : List γ, entries.foldl (fun s e => stepTopK K s (g e)) [] = [] := by
  intro entries
  induction entries with
  | nil => rfl
  | cons e es ih => rw [List.foldl_cons, stepTopK_nonpos K hK (g e), ih]

theorem flfStep_none (K : ℤ) (s : List (ℚ × String)) (it : String × FileEntry)
    (h : it.2.size = none) : flfStep K s it = s := by
  simp [flfStep, h]

theorem flfStep_nonpos (K : ℤ) (hK : K ≤ 0) (it : String × FileEntry) :
    flfStep K [] it = [] := by
  rcases h : it.2.size with _ | n
  · exact flfStep_none K [] it h
  · rw [flfStep, h]
    simp only
    by_cases hq : MIN_FILE_SIZE ≤ (n : ℚ) / (1024 * 1024)
    · rw [if_pos hq, List.nil_append]
      have hcond : K ≤ (([((n : ℚ) / (1024 * 1024), it.1)].length : ℕ) : ℤ) := by
        simp
        omega
      rw [if_pos hcond]
      exact pySlice_short_nonpos _ K hK (by simp [pySort, List.insertionSort])
    · rw [if_neg hq]
      have hcond : K ≤ ((([] : List (ℚ × String)).length : ℕ) : ℤ) := by
        simp
        omega
      rw [if_pos hcond]
      exact pySlice_short_nonpos _ K hK (by simp [pySort, List.insertionSort])

theorem foldl_flfStep_nonpos (K : ℤ) (hK : K ≤ 0) :
    ∀ items : List (String × FileEntry), items.foldl (flfStep K) [] = [] := by
  intro items
  induction items with
  | nil => rfl
  | cons it its ih => rw [List.foldl_cons, flfStep_nonpos K hK it, ih]

theorem get_top_n_nil (n : ℤ) : get_top_n [] n = [] := by
  rw [get_top_n, show pySort ([] : List (ℚ × String)) = [] from rfl, pySlice_nil]

theorem flf_flatten (K : ℤ) :
    ∀ (entries : List (String × List FileEntry)) (s : List (ℚ × String)),
      entries.foldl
        (fun files entry =>
          entry.2.foldl (fun files1 f => flfStep K files1 (pyJoin entry.1 f.name, f)) files)
        s =
      (entries.flatMap (fun entry => entry.2.map (fun f => (pyJoin entry.1 f.name, f)))).foldl
        (flfStep K) s := by
  intro entries
  induction entries with
  | nil => intro s; rfl
  | cons e es ih =>
    intro s
    rw [List.foldl_cons, ih, List.flatMap_cons, List.foldl_append, List.foldl_map]

theorem find_large_files_items (fs : FS) (sd : String) (K : ℤ) :
    find_large_files fs sd K = (walkItems fs sd).foldl (flfStep K) [] := by
  rw [find_large_files, walkItems, flf_flatten]

end DerivedFacts

section CountingFacts

theorem flfStep_some (K : ℤ) (s : List (ℚ × String)) (it : String × FileEntry) (n : ℕ)
    (h : it.2.size = some n) :
    flfStep K s it =
      (let files1 := if MIN_FILE_SIZE ≤ (n : ℚ) / (1024 * 1024)
        then s ++ [((n : ℚ) / (1024 * 1024), it.1)] else s
      if K ≤ (files1.length : ℤ) then pySlice (pySort files1) K else files1) := by
  rw [flfStep, h]

theorem qualifies_none (f : FileEntry) (h : f.size = none) : qualifies f = false := by
  simp [qualifies, h]

theorem qualifies_some (f : FileEntry) (n : ℕ) (h : f.size = some n) :
    qualifies f = decide (MIN_FILE_SIZE ≤ (n : ℚ) / (1024 * 1024)) := by
  simp [qualifies, h]

theorem foldl_flfStep_length (K : ℤ) (hK : 1 ≤ K) :
    ∀ (items : List (String × FileEntry)) (s : List (ℚ × String)),
      s.length ≤ K.toNat →
      (items.foldl (flfStep K) s).length =
        min K.toNat (s.length + items.countP (fun it => qualifies it.2)) := by
  intro items
  induction items with
  | nil =>
    intro s hs
    simp [min_eq_right, hs, Nat.min_eq_right]
  | cons it its ih =>
    intro s hs
    rw [List.foldl_cons]
    rcases hsize : it.2.size with _ | n
    · rw [flfStep_none K s it hsize, ih s hs,
        List.countP_cons_of_neg _ _ (by simp [qualifies_none it.2 hsize])]
    · rw [flfStep_some K s it n hsize]
      have hq := qualifies_some it.2 n hsize
      by_cases hql : MIN_FILE_SIZE ≤ (n : ℚ) / (1024 * 1024)
      · have hcount : (it :: its).countP (fun it2 => qualifies it2.2) =
            its.countP (fun it2 => qualifies it2.2) + 1 := by
          rw [List.countP_cons]
          have hqt : qualifies it.2 = true := by
            rw [hq]
            simpa using hql
          simp [hqt]
        rw [hcount]
        simp only [if_pos hql]
        by_cases hcond : K ≤ (((s ++ [((n : ℚ) / (1024 * 1024), it.1)]).length : ℕ) : ℤ)
        · rw [if_pos hcond]
          have hlen1 : (pySlice (pySort (s ++ [((n : ℚ) / (1024 * 1024), it.1)])) K).length =
              min K.toNat (s.length + 1) := by
            rw [pySlice_of_nonneg _ K (by omega), take_pySort_length]
            simp
          rw [ih _ (by rw [hlen1]; omega), hlen1]
          rw [List.length_append, List.length_singleton] at hcond
          have hcond2 : K.toNat ≤ s.length + 1 := by omega
          omega
        · rw [if_neg hcond]
          rw [List.length_append, List.length_singleton] at hcond
          have hlt : s.length + 1 < K.toNat := by omega
          rw [ih _ (by simp; omega)]
          simp
          omega
      · have hcount : (it :: its).countP (fun it2 => qualifies it2.2) =
            its.countP (fun it2 => qualifies it2.2) := by
          rw [List.countP_cons]
          have hqt : qualifies it.2 = false := by
            rw [hq]
            simpa using hql
          simp [hqt]
        rw [hcount]
        simp only [if_neg hql]
        by_cases hcond : K ≤ ((s.length : ℕ) : ℤ)
        · rw [if_pos hcond]
          have hlen1 : (pySlice (pySort s) K).length = min K.toNat s.length := by
            rw [pySlice_of_nonneg _ K (by omega), take_pySort_length]
          rw [ih _ (by rw [hlen1]; omega), hlen1]
          omega
        · rw [if_neg hcond]
          exact ih s hs

theorem walkItems_countP (fs : FS) (sd : String) :
    (walkItems fs sd).countP (fun it => qualifies it.2) = qualifyingCount fs sd := by
  rw [walkItems, qualifyingCount]
  induction osWalk fs sd with
  | nil => rfl
  | cons e es ih =>
    rw [List.flatMap_cons, List.flatMap_cons, List.countP_append, List.countP_append, ih]
    have : (e.2.map (fun f => (pyJoin e.1 f.name, f))).countP (fun it => qualifies it.2) =
        e.2.countP qualifies := by
      induction e.2 with
      | nil => rfl
      | cons f fsx ih2 =>
        rw [List.map_cons]
        rw [List.countP_cons, List.countP_cons, ih2]
    rw [this]

theorem find_large_files_length (fs : FS) (sd : String) (K : ℤ) (hK : 1 ≤ K) :
    (find_large_files fs sd K).length = min K.toNat (qualifyingCount fs sd) := by
  rw [find_large_files_items, foldl_flfStep_length K hK _ [] (by simp),
    walkItems_countP]
  simp

theorem get_top_n_length (files : List (ℚ × String)) (K : ℤ) (hK : 1 ≤ K) :
    (get_top_n files K).length = min K.toNat files.length := by
  rw [get_top_n, pySlice_of_nonneg _ K (by omega), take_pySort_length]

end CountingFacts

section SizeAndCleanFacts

theorem dirSize_go (files : List FileEntry) :
    ∀ acc : ℚ,
      files.foldl
        (fun size f =>
          match f.size with
          | some n => size + (n : ℚ) / (1024 * 1024)
          | none => size)
        acc =
      acc + ((files.filterMap FileEntry.size).map (fun n : ℕ => (n : ℚ) / (1024 * 1024))).sum := by
  induction files with
  | nil => intro acc; simp
  | cons f fs ih =>
    intro acc
    rcases h : f.size with _ | n
    · simp only [List.foldl_cons, h]
      rw [ih acc, List.filterMap_cons_none h]
    · simp only [List.foldl_cons, h]
      rw [ih _, List.filterMap_cons_some h]
      simp only [List.map_cons, List.sum_cons]
      ring

theorem dirSize_eq_sum (files : List FileEntry) :
    dirSize files =
      ((files.filterMap FileEntry.size).map (fun n : ℕ => (n : ℚ) / (1024 * 1024))).sum := by
  rw [dirSize, dirSize_go files 0, zero_add]

theorem filterMap_filter_isSome : ∀ files : List FileEntry,
    (files.filter (fun f => f.size.isSome)).filterMap FileEntry.size =
      files.filterMap FileEntry.size := by
  intro files
  induction files with
  | nil => rfl
  | cons f fs ih =>
    rcases h : f.size with _ | n
    · rw [List.filter_cons_of_neg (by simp [h]), ih, List.filterMap_cons_none h]
    · rw [List.filter_cons_of_pos (by simp [h]), List.filterMap_cons_some h,
        List.filterMap_cons_some h, ih]

theorem dirSize_filter (files : List FileEntry) :
    dirSize (files.filter (fun f => f.size.isSome)) = dirSize files := by
  rw [dirSize_eq_sum, dirSize_eq_sum, filterMap_filter_isSome]

theorem walk_removeVanished (t : FSTree) :
    ∀ p : String, (t.removeVanished).walk p = (t.walk p).map cleanEntry :=
  @FSTree.rec
    (fun t2 => ∀ p : String, (t2.removeVanished).walk p = (t2.walk p).map cleanEntry)
    (fun f2 => ∀ p : String, (f2.removeVanished).walk p = (f2.walk p).map cleanEntry)
    (fun files subs ih p => by
      rw [FSTree.removeVanished, FSTree.walk, FSTree.walk, List.map_cons, ih p, cleanEntry])
    (fun _ => rfl)
    (fun name t2 rest ih1 ih2 p => by
      rw [FSForest.removeVanished, FSForest.walk, FSForest.walk, List.map_append,
        ih1 (pyJoin p name), ih2 p])
    t

theorem osWalk_cleanFS (fs : FS) (sd : String) :
    osWalk (cleanFS fs) sd = (osWalk fs sd).map cleanEntry := by
  rw [osWalk, osWalk, cleanFS]
  rcases h : fs sd with _ | t
  · simp [h]
  · simp only [h, Option.map_some]
    exact walk_removeVanished t sd

theorem foldl_map_cleanEntry {δ : Type} (g : δ → (String × List FileEntry) → δ)
    (hg : ∀ s e, g s (cleanEntry e) = g s e) :
    ∀ (entries : List (String × List FileEntry)) (s : δ),
      (entries.map cleanEntry).foldl g s = entries.foldl g s := by
  intro entries
  induction entries with
  | nil => intro s; rfl
  | cons e es ih =>
    intro s
    rw [List.map_cons, List.foldl_cons, List.foldl_cons, hg s e, ih]

theorem foldl_flf_filter (K : ℤ) (root : String) :
    ∀ (files : List FileEntry) (s : List (ℚ × String)),
      (files.filter (fun f => f.size.isSome)).foldl
        (fun s1 f => flfStep K s1 (pyJoin root f.name, f)) s =
      files.foldl (fun s1 f => flfStep K s1 (pyJoin root f.name, f)) s := by
  intro files
  induction files with
  | nil => intro s; rfl
  | cons f fs ih =>
    intro s
    rcases h : f.size with _ | n
    · rw [List.filter_cons_of_neg (by simp [h]), ih, List.foldl_cons,
        flfStep_none K s _ (by simpa using h)]
    · rw [List.filter_cons_of_pos (by simp [h]), List.foldl_cons, List.foldl_cons, ih]

theorem pyEnumerate_length {γ : Type} : ∀ (i : ℕ) (l : List γ),
    (pyEnumerate i l).length = l.length := by
  intro i l
  induction l generalizing i with
  | nil => rfl
  | cons x xs ih => rw [pyEnumerate, List.length_cons, List.length_cons, ih]

theorem pyEnumerate_map_fst {γ : Type} : ∀ (i : ℕ) (l : List γ),
    (pyEnumerate i l).map Prod.fst = List.range' i l.length := by
  intro i l
  induction l generalizing i with
  | nil => rfl
  | cons x xs ih =>
    rw [pyEnumerate, List.map_cons, List.length_cons, List.range'_succ, ih]

end SizeAndCleanFacts

section FloorAndLengthFacts

theorem pySlice_subset {γ : Type} (l : List γ) (n : ℤ) : pySlice l n ⊆ l := by
  rw [pySlice]
  split
  · exact List.take_subset _ _
  · exact List.take_subset _ _

theorem flfStep_mem (K : ℤ) (s : List (ℚ × String)) (it : String × FileEntry)
    (hmem : ∀ m ∈ s, MIN_FILE_SIZE ≤ m.1) :
    ∀ m ∈ flfStep K s it, MIN_FILE_SIZE ≤ m.1 := by
  intro m hm
  rcases hsize : it.2.size with _ | n
  · rw [flfStep_none K s it hsize] at hm
    exact hmem m hm
  · rw [flfStep_some K s it n hsize] at hm
    simp only at hm
    by_cases hql : MIN_FILE_SIZE ≤ (n : ℚ) / (1024 * 1024)
    · rw [if_pos hql] at hm
      have hm2 : m ∈ s ++ [((n : ℚ) / (1024 * 1024), it.1)] := by
        by_cases hcond : K ≤ (((s ++ [((n : ℚ) / (1024 * 1024), it.1)]).length : ℕ) : ℤ)
        · rw [if_pos hcond] at hm
          exact ((pySort_perm _).mem_iff).mp (pySlice_subset _ K hm)
        · rw [if_neg hcond] at hm
          exact hm
      rcases List.mem_append.mp hm2 with hs | hx
      · exact hmem m hs
      · rw [List.mem_singleton.mp hx]
        exact hql
    · rw [if_neg hql] at hm
      have hm2 : m ∈ s := by
        by_cases hcond : K ≤ ((s.length : ℕ) : ℤ)
        · rw [if_pos hcond] at hm
          exact ((pySort_perm _).mem_iff).mp (pySlice_subset _ K hm)
        · rw [if_neg hcond] at hm
          exact hm
      exact hmem m hm2

theorem foldl_flfStep_mem (K : ℤ) :
    ∀ (items : List (String × FileEntry)) (s : List (ℚ × String)),
      (∀ m ∈ s, MIN_FILE_SIZE ≤ m.1) →
      ∀ m ∈ items.foldl (flfStep K) s, MIN_FILE_SIZE ≤ m.1 := by
  intro items
  induction items with
  | nil => intro s hs; exact hs
  | cons it its ih =>
    intro s hs
    rw [List.foldl_cons]
    exact ih _ (flfStep_mem K s it hs)

theorem find_large_files_min (fs : FS) (sd : String) (K : ℤ) :
    ∀ m ∈ find_large_files fs sd K, MIN_FILE_SIZE ≤ m.1 := by
  rw [find_large_files_items]
  exact foldl_flfStep_mem K (walkItems fs sd) [] (by intro m hm; exact absurd hm (List.not_mem_nil m))

theorem get_dir_counts_length_int (fs : FS) (sd : String) (k : ℤ) :
    ((get_dir_counts fs sd k).length : ℤ) = max 0 (min k ((osWalk fs sd).length : ℤ)) := by
  rcases le_or_lt k 0 with hk | hk
  · have h0 : get_dir_counts fs sd k = [] := by
      rw [get_dir_counts]
      exact foldl_stepTopK_nonpos k hk _ _
    rw [h0]
    simp only [List.length_nil, Nat.cast_zero]
    omega
  · rw [get_dir_counts_closed fs sd k hk, List.length_take, pySort_length, List.length_map]
    omega

theorem get_dir_sizes_length_int (fs : FS) (sd : String) (k : ℤ) :
    ((get_dir_sizes fs sd k).length : ℤ) = max 0 (min k ((osWalk fs sd).length : ℤ)) := by
  rcases le_or_lt k 0 with hk | hk
  · have h0 : get_dir_sizes fs sd k = [] := by
      rw [get_dir_sizes]
      exact foldl_stepTopK_nonpos k hk _ _
    rw [h0]
    simp only [List.length_nil, Nat.cast_zero]
    omega
  · rw [get_dir_sizes_closed fs sd k hk, List.length_take, pySort_length, List.length_map]
    omega

theorem topfiles_rows_length_int (fs : FS) (sd : String) (k : ℤ) :
    ((get_top_n (find_large_files fs sd k) k).length : ℤ) =
      max 0 (min k ((qualifyingCount fs sd : ℕ) : ℤ)) := by
  rcases le_or_lt k 0 with hk | hk
  · have h0 : find_large_files fs sd k = [] := by
      rw [find_large_files_items]
      exact foldl_flfStep_nonpos k hk _
    rw [h0, get_top_n_nil]
    simp only [List.length_nil, Nat.cast_zero]
    omega
  · rw [get_top_n_length _ k hk, find_large_files_length fs sd k hk]
    omega

end FloorAndLengthFacts

section ConcreteEvaluations

theorem mb_2097152 : ((2097152 : ℕ) : ℚ) / (1024 * 1024) = 2 := by norm_num

theorem mb_3145728 : ((3145728 : ℕ) : ℚ) / (1024 * 1024) = 3 := by norm_num

theorem mb_104857600 : ((104857600 : ℕ) : ℚ) / (1024 * 1024) = 100 := by norm_num

theorem mb_1048576 : ((1048576 : ℕ) : ℚ) / (1024 * 1024) = 1 := by norm_num

theorem mb_943718_lt : ¬ MIN_FILE_SIZE ≤ ((943718 : ℕ) : ℚ) / (1024 * 1024) := by
  rw [MIN_FILE_SIZE]
  norm_num

theorem dTree_walk : osWalk dFS "/d" =
    [("/d", [⟨"f2", some 2097152⟩, ⟨"f3", some 3145728⟩]),
     ("/d/sub", [⟨"big", some 104857600⟩])] := by decide

theorem dirSize_d : dirSize [⟨"f2", some 2097152⟩, ⟨"f3", some 3145728⟩] = 5 := by
  rw [dirSize_eq_sum, show List.filterMap FileEntry.size
      [⟨"f2", some 2097152⟩, ⟨"f3", some 3145728⟩] = [2097152, 3145728] from rfl]
  norm_num

theorem dirSize_sub : dirSize [⟨"big", some 104857600⟩] = 100 := by
  rw [dirSize_eq_sum, show List.filterMap FileEntry.size
      [⟨"big", some 104857600⟩] = [104857600] from rfl]
  norm_num

theorem get_dir_sizes_d : get_dir_sizes dFS "/d" 10 = [(100, "/d/sub"), (5, "/d")] := by
  rw [get_dir_sizes, dTree_walk]
  simp only [List.foldl_cons, List.foldl_nil, dirSize_d, dirSize_sub]
  decide

theorem flf_small : find_large_files smallFS "/r" 5 = [] := by
  rw [find_large_files_items,
    show walkItems smallFS "/r" = [("/r/tiny", ⟨"tiny", some 943718⟩)] from by decide,
    List.foldl_cons, List.foldl_nil, flfStep_some 5 [] _ 943718 rfl]
  rw [if_neg mb_943718_lt]
  decide

theorem mb_1048576_ge : MIN_FILE_SIZE ≤ ((1048576 : ℕ) : ℚ) / (1024 * 1024) := by
  rw [MIN_FILE_SIZE]
  norm_num

theorem flf_exact : find_large_files exactFS "/r" 5 = [(1, "/r/big")] := by
  rw [find_large_files_items,
    show walkItems exactFS "/r" = [("/r/big", ⟨"big", some 1048576⟩)] from by decide,
    List.foldl_cons, List.foldl_nil, flfStep_some 5 [] _ 1048576 rfl]
  rw [if_pos mb_1048576_ge, mb_1048576]
  decide

end ConcreteEvaluations

section ClaimHelpers

variable {α β : Type} [LinearOrder α]

theorem stepTopK_fold_inv (K : ℤ) (hK : 1 ≤ K) (offers : List (α × β)) :
    ((offers.foldl (stepTopK K) []).length : ℤ) ≤ K ∧
    List.Sorted rdesc (offers.foldl (stepTopK K) []) := by
  rw [foldl_stepTopK_pos K hK]
  constructor
  · rw [List.length_take, pySort_length]
    omega
  · exact sorted_take (pySort_sorted offers) K.toNat

theorem get_top_n_inv (K : ℤ) (hK : 1 ≤ K) (files : List (ℚ × String)) :
    ((get_top_n files K).length : ℤ) ≤ K ∧ List.Sorted rdesc (get_top_n files K) := by
  rw [get_top_n, pySlice_of_nonneg _ K (by omega)]
  constructor
  · rw [List.length_take, pySort_length]
    omega
  · exact sorted_take (pySort_sorted files) K.toNat

theorem no_displacement (K : ℤ) (hK : 1 ≤ K) (offers : List (α × β)) (x y : α × β)
    (hy : y ∈ offers.foldl (stepTopK K) []) (hxy : x.1 ≤ y.1) :
    y ∈ (offers ++ [x]).foldl (stepTopK K) [] := by
  have hs : offers.foldl (stepTopK K) [] = (pySort offers).take K.toNat :=
    foldl_stepTopK_pos K hK offers
  rw [List.foldl_append, List.foldl_cons, List.foldl_nil, hs]
  rw [hs] at hy
  have hsorted : List.Sorted rdesc ((pySort offers).take K.toNat) :=
    sorted_take (pySort_sorted offers) K.toNat
  rw [stepTopK_pos K hK, pySort_append_last, pySort_of_sorted hsorted]
  have h1 := mem_take_insLast ((pySort offers).take K.toNat) hsorted y x hy hxy
  have hsl : ((pySort offers).take K.toNat).length ≤ K.toNat := by
    rw [List.length_take]
    omega
  have h2 : ((insLast x ((pySort offers).take K.toNat)).take K.toNat).take
        ((pySort offers).take K.toNat).length =
      (insLast x ((pySort offers).take K.toNat)).take ((pySort offers).take K.toNat).length := by
    rw [List.take_take, min_eq_left hsl]
  rw [← h2] at h1
  exact List.mem_of_mem_take h1

theorem osWalk_none (fs : FS) (sd : String) (h : fs sd = none) : osWalk fs sd = [] := by
  rw [osWalk, h]

end ClaimHelpers

/-- C1: for every configuration with K at least 1 and every filesystem tree,
the final result of each scan has length exactly min(K, number of
qualifying measurements): one measurement per visited directory for
get_dir_counts and get_dir_sizes, and one per successfully measured file of
at least 1.0 MB for find_large_files followed by get_top_n. -/
theorem C1_result_length (K : ℤ) (hK : 1 ≤ K) (fs : FS) (sd : String) :
    (get_dir_counts fs sd K).length = min K.toNat (osWalk fs sd).length ∧
    (get_dir_sizes fs sd K).length = min K.toNat (osWalk fs sd).length ∧
    (get_top_n (find_large_files fs sd K) K).length = min K.toNat (qualifyingCount fs sd) := by
  refine ⟨?_, ?_, ?_⟩
  · rw [get_dir_counts_closed fs sd K hK, List.length_take, pySort_length, List.length_map]
  · rw [get_dir_sizes_closed fs sd K hK, List.length_take, pySort_length, List.length_map]
  · rw [get_top_n_length _ K hK, find_large_files_length fs sd K hK]
    omega

/-- C1 witness: the theorem applied to K = 1 and the two-directory sample
filesystem. -/
theorem C1_result_length_witness :
    (1 : ℤ) ≤ 1 ∧
    ((get_dir_counts fsSample "/r" 1).length = min (1 : ℤ).toNat (osWalk fsSample "/r").length ∧
     (get_dir_sizes fsSample "/r" 1).length = min (1 : ℤ).toNat (osWalk fsSample "/r").length ∧
     (get_top_n (find_large_files fsSample "/r" 1) 1).length =
       min (1 : ℤ).toNat (qualifyingCount fsSample "/r")) :=
  ⟨by decide, C1_result_length 1 (by decide) fsSample "/r"⟩

/-- C2: at every observation point after an insertion the retained list has
length at most K and is non-increasing by metric: the accumulator of
get_dir_counts and get_dir_sizes after each loop iteration (the fold over
any prefix of the offered measurements, here any offer list), and the value
returned by get_top_n in the file mode. -/
theorem C2_invariant (K : ℤ) (hK : 1 ≤ K) :
    (∀ offers : List (ℕ × String),
      ((offers.foldl (stepTopK K) []).length : ℤ) ≤ K ∧
      List.Sorted rdesc (offers.foldl (stepTopK K) [])) ∧
    (∀ offers : List (ℚ × String),
      ((offers.foldl (stepTopK K) []).length : ℤ) ≤ K ∧
      List.Sorted rdesc (offers.foldl (stepTopK K) [])) ∧
    (∀ files : List (ℚ × String),
      ((get_top_n files K).length : ℤ) ≤ K ∧ List.Sorted rdesc (get_top_n files K)) :=
  ⟨fun offers => stepTopK_fold_inv K hK offers,
   fun offers => stepTopK_fold_inv K hK offers,
   fun files => get_top_n_inv K hK files⟩

/-- C2 witness: the invariant applied to K = 1 on concrete offer lists. -/
theorem C2_invariant_witness :
    ((([((3 : ℕ), "a"), (7, "b")].foldl (stepTopK 1) []).length : ℤ) ≤ 1 ∧
      List.Sorted rdesc ([((3 : ℕ), "a"), (7, "b")].foldl (stepTopK 1) [])) ∧
    ((get_top_n [((2 : ℚ), "x")] 1).length : ℤ) ≤ 1 ∧
      List.Sorted rdesc (get_top_n [((2 : ℚ), "x")] 1) :=
  ⟨(C2_invariant 1 (by decide)).1 [(3, "a"), (7, "b")],
   (C2_invariant 1 (by decide)).2.2 [(2, "x")]⟩

/-- C3: exact-metric ties are broken by discovery order: offering a
measurement whose metric equals (or is below) that of an already retained
one never removes the retained one; and the concrete offers (5,a), (5,b),
(3,c) with K = 2 retain [(5,a), (5,b)]. -/
theorem C3_tie_stability (K : ℤ) (hK : 1 ≤ K) :
    (∀ (offers : List (ℚ × String)) (x y : ℚ × String),
      y ∈ offers.foldl (stepTopK K) [] → x.1 = y.1 →
      y ∈ (offers ++ [x]).foldl (stepTopK K) []) ∧
    [((5 : ℚ), "a"), (5, "b"), (3, "c")].foldl (stepTopK 2) [] = [(5, "a"), (5, "b")] :=
  ⟨fun offers x y hy hxy => no_displacement K hK offers x y hy (le_of_eq hxy),
   by decide⟩

/-- C3 witness: a retained measurement of metric 5 survives a later
equal-metric offer at capacity K = 1. -/
theorem C3_tie_stability_witness :
    ((5 : ℚ), "a") ∈ ([((5 : ℚ), "a")] ++ [((5 : ℚ), "b")]).foldl (stepTopK 1) [] :=
  (C3_tie_stability 1 (by decide)).1 [((5 : ℚ), "a")] ((5 : ℚ), "b") ((5 : ℚ), "a")
    (by decide) rfl

/-- C4: for every K at least 1 and every finite offer sequence, the
implemented append-resort-truncate strategy (stepTopK) and the
compare-and-evict selector of spec section 4.3 (specEvict) fold to
identical final lists. -/
theorem C4_strategies_agree {α β : Type} [LinearOrder α] (K : ℤ) (hK : 1 ≤ K)
    (offers : List (α × β)) :
    offers.foldl (stepTopK K) [] = offers.foldl (specEvict K.toNat) [] := by
  rw [foldl_stepTopK_pos K hK, foldl_specEvict_take K.toNat (by omega)]

/-- C4 witness: both strategies applied to the eviction scenario with K = 2
give the same list, which decides to [(3,c), (2,b)]. -/
theorem C4_strategies_agree_witness :
    [((1 : ℚ), "a"), (2, "b"), (3, "c")].foldl (stepTopK 2) [] =
      [((1 : ℚ), "a"), (2, "b"), (3, "c")].foldl (specEvict (2 : ℤ).toNat) [] ∧
    [((1 : ℚ), "a"), (2, "b"), (3, "c")].foldl (stepTopK 2) [] = [(3, "c"), (2, "b")] :=
  ⟨C4_strategies_agree 2 (by decide) _, by decide⟩

/-- C5: the DirectSize metric of a directory is the megabyte sum (bytes
divided by 1024*1024) of the files directly inside it only, exactly one
measurement is produced per visited directory, and in the scenario where /d
directly holds a 2.0 MB and a 3.0 MB file while /d/sub holds a 100 MB file,
the metric of /d is 5, not 105. -/
theorem C5_direct_size :
    (∀ files : List FileEntry, dirSize files =
      ((files.filterMap FileEntry.size).map (fun n : ℕ => (n : ℚ) / (1024 * 1024))).sum) ∧
    (∀ (fs : FS) (sd : String) (K : ℤ), get_dir_sizes fs sd K =
      ((osWalk fs sd).map (fun e => (dirSize e.2, e.1))).foldl (stepTopK K) []) ∧
    get_dir_sizes dFS "/d" 10 = [(100, "/d/sub"), (5, "/d")] := by
  refine ⟨dirSize_eq_sum, ?_, get_dir_sizes_d⟩
  intro fs sd K
  rw [get_dir_sizes, List.foldl_map]

/-- C6: a file strictly below the 1.0 MB floor is never emitted (every
emitted metric is at least MIN_FILE_SIZE, and a 943718-byte file produces
no measurement), a file of exactly 1048576 bytes is emitted with metric
1.0, and the floor is the hard-coded constant 1. -/
theorem C6_floor :
    (∀ (fs : FS) (sd : String) (K : ℤ),
      ∀ m ∈ find_large_files fs sd K, MIN_FILE_SIZE ≤ m.1) ∧
    find_large_files smallFS "/r" 5 = [] ∧
    find_large_files exactFS "/r" 5 = [(1, "/r/big")] ∧
    MIN_FILE_SIZE = 1 :=
  ⟨fun fs sd K => find_large_files_min fs sd K, flf_small, flf_exact, rfl⟩

/-- C6 witness: the floor bound applied to the one emitted measurement of
the exact-1.0-MB filesystem. -/
theorem C6_floor_witness :
    ((1 : ℚ), "/r/big") ∈ find_large_files exactFS "/r" 5 ∧
    MIN_FILE_SIZE ≤ ((1 : ℚ), "/r/big").1 :=
  ⟨by rw [flf_exact]; exact List.mem_singleton.mpr rfl,
   C6_floor.1 exactFS "/r" 5 ((1 : ℚ), "/r/big")
     (by rw [flf_exact]; exact List.mem_singleton.mpr rfl)⟩

/-- C7 counterexample: scan with K = 5 and startDirectory /does/not/exist
does not fail: topcounts runs to a successful exit with an empty row list
(os.walk silently yields nothing for a missing root), refuting the claimed
ConfigError with a non-zero exit before traversal. -/
theorem C7_counterexample :
    topcounts_main fsEmpty ["topcounts", "5", "/does/not/exist"] = RunResult.ok [] := by
  decide

/-- C7 amended: the scripts perform no configuration validation. A missing
startDirectory yields the empty result and a successful run printing only
the header; the same scan functions also return empty (not an error) for
any K when the root is missing; only a non-numeric K aborts the process
with a non-zero exit (an uncaught ValueError raised after the header row,
before any traversal). -/
theorem C7_amended :
    (∀ (fs : FS) (sd : String) (K : ℤ), fs sd = none →
      get_dir_counts fs sd K = [] ∧ get_dir_sizes fs sd K = [] ∧
      get_top_n (find_large_files fs sd K) K = []) ∧
    (∀ (fs : FS) (prog a1 sd : String) (k : ℤ), pyInt a1 = some k → fs sd = none →
      topcounts_main fs [prog, a1, sd] = RunResult.ok []) ∧
    (∀ (fs : FS) (prog a1 sd : String), pyInt a1 = none →
      topcounts_main fs [prog, a1, sd] = RunResult.crash) := by
  have hempty : ∀ (fs : FS) (sd : String) (K : ℤ), fs sd = none →
      get_dir_counts fs sd K = [] ∧ get_dir_sizes fs sd K = [] ∧
      get_top_n (find_large_files fs sd K) K = [] := by
    intro fs sd K h
    refine ⟨?_, ?_, ?_⟩
    · rw [get_dir_counts, osWalk_none fs sd h]
      rfl
    · rw [get_dir_sizes, osWalk_none fs sd h]
      rfl
    · rw [show find_large_files fs sd K = [] from by
        rw [find_large_files, osWalk_none fs sd h]; rfl]
      exact get_top_n_nil K
  refine ⟨hempty, ?_, ?_⟩
  · intro fs prog a1 sd k hparse h
    simp only [topcounts_main, hparse]
    rw [(hempty fs sd k h).1]
    rfl
  · intro fs prog a1 sd hparse
    simp only [topcounts_main, hparse]

/-- C7 amended witness: the amended statements applied at K = 5 with the
missing directory /does/not/exist and at the non-numeric argument x. -/
theorem C7_amended_witness :
    get_dir_counts fsEmpty "/does/not/exist" 5 = [] ∧
    topcounts_main fsEmpty ["topcounts", "5", "/does/not/exist"] = RunResult.ok [] ∧
    topcounts_main fsEmpty ["topcounts", "x", "/d"] = RunResult.crash :=
  ⟨(C7_amended.1 fsEmpty "/does/not/exist" 5 rfl).1,
   C7_amended.2.1 fsEmpty "topcounts" "5" "/does/not/exist" 5 (by decide) rfl,
   C7_amended.2.2 fsEmpty "topcounts" "x" "/d" (by decide)⟩

/-- C8: a file whose size lookup fails because it vanished between listing
and stat is skipped silently and contributes nothing to any metric: erasing
every vanished entry from the filesystem leaves get_dir_sizes and
find_large_files unchanged, and the scan still runs to completion over the
remaining entries. -/
theorem C8_vanished_skipped (fs : FS) (sd : String) (K : ℤ) :
    get_dir_sizes (cleanFS fs) sd K = get_dir_sizes fs sd K ∧
    find_large_files (cleanFS fs) sd K = find_large_files fs sd K := by
  constructor
  · rw [get_dir_sizes, get_dir_sizes, osWalk_cleanFS]
    exact foldl_map_cleanEntry
      (fun sizes entry => stepTopK K sizes (dirSize entry.2, entry.1))
      (fun s e => by simp only [cleanEntry]; rw [dirSize_filter]) (osWalk fs sd) []
  · rw [find_large_files, find_large_files, osWalk_cleanFS]
    exact foldl_map_cleanEntry
      (fun files entry =>
        entry.2.foldl (fun files1 f => flfStep K files1 (pyJoin entry.1 f.name, f)) files)
      (fun s e => by simp only [cleanEntry]; rw [foldl_flf_filter]) (osWalk fs sd) []

/-- C9 counterexample: invoked with exactly two arguments but a non-numeric
K, topcounts does not print ranked rows and exit successfully: the int()
call raises an uncaught ValueError and the process exits non-zero, refuting
the claimed success of every two-argument invocation. -/
theorem C9_counterexample :
    topcounts_main fsEmpty ["topcounts", "K5", "/tmp"] = RunResult.crash := by
  decide

/-- C9 amended: a wrong argument count yields the usage message on standard
error and a non-zero exit for all three tools; with two arguments, a
non-numeric K aborts non-zero after the header, and a numeric K prints the
header followed by max(0, min(K, qualifying entries)) ranked rows indexed
from 1, exiting successfully. -/
theorem C9_amended :
    (∀ (fs : FS) (argv : List String), argv.length ≠ 3 →
      topcounts_main fs argv = RunResult.usage ∧
      topdirs_main fs argv = RunResult.usage ∧
      topfiles_main fs argv = RunResult.usage) ∧
    (∀ (fs : FS) (prog a1 sd : String), pyInt a1 = none →
      topcounts_main fs [prog, a1, sd] = RunResult.crash ∧
      topdirs_main fs [prog, a1, sd] = RunResult.crash ∧
      topfiles_main fs [prog, a1, sd] = RunResult.crash) ∧
    (∀ (fs : FS) (prog a1 sd : String) (k : ℤ), pyInt a1 = some k →
      (∃ rows, topcounts_main fs [prog, a1, sd] = RunResult.ok rows ∧
        (rows.length : ℤ) = max 0 (min k ((osWalk fs sd).length : ℤ)) ∧
        rows.map Prod.fst = List.range' 1 rows.length) ∧
      (∃ rows, topfiles_main fs [prog, a1, sd] = RunResult.ok rows ∧
        (rows.length : ℤ) = max 0 (min k ((qualifyingCount fs sd : ℕ) : ℤ)) ∧
        rows.map Prod.fst = List.range' 1 rows.length)) := by
  refine ⟨?_, ?_, ?_⟩
  · intro fs argv h
    match argv with
    | [] => exact ⟨rfl, rfl, rfl⟩
    | [_] => exact ⟨rfl, rfl, rfl⟩
    | [_, _] => exact ⟨rfl, rfl, rfl⟩
    | [_, _, _] => exact absurd rfl h
    | _ :: _ :: _ :: _ :: _ => exact ⟨rfl, rfl, rfl⟩
  · intro fs prog a1 sd hparse
    refine ⟨?_, ?_, ?_⟩
    · simp only [topcounts_main, hparse]
    · simp only [topdirs_main, hparse]
    · simp only [topfiles_main, hparse]
  · intro fs prog a1 sd k hparse
    constructor
    · refine ⟨pyEnumerate 1 (get_dir_counts fs sd k), ?_, ?_, ?_⟩
      · simp only [topcounts_main, hparse]
      · rw [pyEnumerate_length, get_dir_counts_length_int]
      · rw [pyEnumerate_map_fst, pyEnumerate_length]
    · refine ⟨pyEnumerate 1 (get_top_n (find_large_files fs sd k) k), ?_, ?_, ?_⟩
      · simp only [topfiles_main, hparse]
      · rw [pyEnumerate_length, topfiles_rows_length_int]
      · rw [pyEnumerate_map_fst, pyEnumerate_length]

/-- C9 amended witness: the amended statements applied to a one-argument
call, a non-numeric K, and K = 1 on the sample filesystem. -/
theorem C9_amended_witness :
    topcounts_main fsEmpty ["x"] = RunResult.usage ∧
    topfiles_main fsEmpty ["topfiles", "z", "/r"] = RunResult.crash ∧
    (∃ rows, topcounts_main fsSample ["topcounts", "1", "/r"] = RunResult.ok rows ∧
      (rows.length : ℤ) = max 0 (min 1 ((osWalk fsSample "/r").length : ℤ)) ∧
      rows.map Prod.fst = List.range' 1 rows.length) :=
  ⟨(C9_amended.1 fsEmpty ["x"] (by decide)).1,
   (C9_amended.2.1 fsEmpty "topfiles" "z" "/r" (by decide)).2.2,
   (C9_amended.2.2 fsSample "topcounts" "1" "/r" 1 (by decide)).1⟩

/-- C10: a zero or negative K is not rejected: every truncation leaves the
empty list, all three scans return the empty list, and the tools print only
the header row and exit successfully. -/
theorem C10_nonpos_K (K : ℤ) (hK : K ≤ 0) (fs : FS) (sd : String) :
    get_dir_counts fs sd K = [] ∧ get_dir_sizes fs sd K = [] ∧
    find_large_files fs sd K = [] ∧ get_top_n (find_large_files fs sd K) K = [] ∧
    (∀ prog a1 : String, pyInt a1 = some K →
      topcounts_main fs [prog, a1, sd] = RunResult.ok [] ∧
      topdirs_main fs [prog, a1, sd] = RunResult.ok [] ∧
      topfiles_main fs [prog, a1, sd] = RunResult.ok []) := by
  have hc : get_dir_counts fs sd K = [] := by
    rw [get_dir_counts]
    exact foldl_stepTopK_nonpos K hK _ _
  have hsz : get_dir_sizes fs sd K = [] := by
    rw [get_dir_sizes]
    exact foldl_stepTopK_nonpos K hK _ _
  have hf : find_large_files fs sd K = [] := by
    rw [find_large_files_items]
    exact foldl_flfStep_nonpos K hK _
  have ht : get_top_n (find_large_files fs sd K) K = [] := by
    rw [hf]
    exact get_top_n_nil K
  refine ⟨hc, hsz, hf, ht, ?_⟩
  intro prog a1 hparse
  refine ⟨?_, ?_, ?_⟩
  · simp only [topcounts_main, hparse]
    rw [hc]
    rfl
  · simp only [topdirs_main, hparse]
    rw [hsz]
    rfl
  · simp only [topfiles_main, hparse]
    rw [ht]
    rfl

/-- C10 witness: the theorem applied to K = -2 on the sample filesystem,
with -2 parsed from the command line. -/
theorem C10_nonpos_K_witness :
    (-2 : ℤ) ≤ 0 ∧ get_dir_counts fsSample "/r" (-2) = [] ∧
    topcounts_main fsSample ["topcounts", "-2", "/r"] = RunResult.ok [] :=
  ⟨by decide, (C10_nonpos_K (-2) (by decide) fsSample "/r").1,
   ((C10_nonpos_K (-2) (by decide) fsSample "/r").2.2.2.2 "topcounts" "-2" (by decide)).1⟩
